import Mathlib

/-!
Verification of the discord-bots supervision and scheduling core.

Shallow embedding of:
* the schedule primitive (`daily_at` in src/shared/job_manager.py, plus the
  next-fire computation the spec assigns to the scheduling loop),
* the cron job manager (`CronJobManager` in src/shared/job_manager.py),
* the worker runner (`run_bot` in src/core/bot_runner.py and `safe_run_bot`
  in src/app.py),
* the supervisor/launcher (`main` in src/app.py).

Instants are modelled as whole minutes since an arbitrary epoch (the
schedules in the source have minute granularity); timezones are modelled as
fixed UTC offsets in minutes.
-/

/-- Wall-clock schedule time bound to a timezone, as built by `daily_at` in
src/shared/job_manager.py.  The timezone is a fixed UTC offset in minutes. -/
structure ScheduleTime where
  hour : Nat
  minute : Nat
  tzOffset : Int
  deriving Repr, DecidableEq

/-- Source function `daily_at(hour, minute=0, timezone="Asia/Ho_Chi_Minh")`
from src/shared/job_manager.py: builds a daily schedule time.  The caller
passes the timezone's offset; Asia/Ho_Chi_Minh is UTC+7 = 420 minutes. -/
def daily_at (hour : Nat) (minute : Nat) (tzOffset : Int) : ScheduleTime :=
  { hour := hour, minute := minute, tzOffset := tzOffset }

/-- Source function `vietnam_time(hour, minute=0)` from
src/shared/job_manager.py: `daily_at` in the Asia/Ho_Chi_Minh zone. -/
def vietnam_time (hour : Nat) (minute : Nat) : ScheduleTime :=
  daily_at hour minute 420

/-- Modelled from the spec: the next-fire computation belongs to the
third-party scheduling loop (`tasks.loop(time=...)`), which is not part of
this repository's sources.  Section 4.1 of the spec describes local
wall-clock time in the schedule's timezone; with fixed-offset zones the
local minute-of-day of instant `now` is `(now + tzOffset) mod 1440`. -/
def localMinuteOfDay (tzOffset now : Int) : Int :=
  (now + tzOffset) % 1440

/-- Modelled from the spec: `nextFire(now)` is the smallest instant `≥ now`
whose local wall-clock time in the schedule's timezone equals
(hour, minute); equality with `now`'s local wall-clock fires now. -/
def nextFire (st : ScheduleTime) (now : Int) : Int :=
  let target : Int := 60 * st.hour + st.minute
  let cur := localMinuteOfDay st.tzOffset now
  if cur = target then now else now + (target - cur) % 1440

/-! ## Association-list model of Python dictionaries

`CronJobManager` keeps two `dict`s keyed by job name.  They are modelled as
association lists with Python `dict` operations: lookup, `del`, and
assignment (update in place when the key exists, append otherwise). -/

/-- Python dict lookup `d.get(k)` / `d[k]` on an association list. -/
def dictGet {α : Type} (k : String) : List (String × α) → Option α
  | [] => none
  | (k', v) :: rest => if k' = k then some v else dictGet k rest

/-- Python dict deletion `del d[k]`: removes the binding for `k`. -/
def dictErase {α : Type} (k : String) : List (String × α) → List (String × α)
  | [] => []
  | (k', v) :: rest => if k' = k then dictErase k rest else (k', v) :: dictErase k rest

/-- Python dict assignment `d[k] = v`: updates the binding in place when `k`
is already present, otherwise appends it at the end. -/
def dictSet {α : Type} (k : String) (v : α) : List (String × α) → List (String × α)
  | [] => [(k, v)]
  | (k', v') :: rest =>
      if k' = k then (k, v) :: rest else (k', v') :: dictSet k v rest

/-! ## Job manager data model (src/shared/job_manager.py) -/

/-- Result of one invocation of a job action: the Python callable either
returns normally or raises an exception carrying a message. -/
inductive ActionResult : Type
  | success : ActionResult
  | failure (msg : String) : ActionResult
  deriving Repr, DecidableEq

/-- Keyword-argument bag (`kwargs`), a Python dict of serializable values
modelled as string-to-string bindings. -/
abbrev Kwargs := List (String × String)

/-- A job action (`job_function`): invoked with the bot handle (left
abstract) and the descriptor's keyword arguments; may raise. -/
abbrev JobAction := Kwargs → ActionResult

/-- Source dataclass `JobConfig`: configuration for a scheduled job.  In the
source `enabled` defaults to `True` and `kwargs` to `None`. -/
structure JobConfig where
  name : String
  description : String
  schedule_time : ScheduleTime
  job_function : JobAction
  enabled : Bool
  kwargs : Option Kwargs

/-- A `discord.ext.tasks.Loop` object as created inside `add_job`: the inner
`job_task` closure captures the `JobConfig`; `gen` models the object's
identity, telling which registration's loop this is. -/
structure TaskLoop where
  gen : Nat
  cfg : JobConfig
  running : Bool

/-- Source method `Loop.is_running()`. -/
def TaskLoop.is_running (l : TaskLoop) : Bool :=
  l.running

/-- Source method `Loop.cancel()`: stops the loop; safe on a loop that is
not running (the discord.ext implementation makes it a no-op then). -/
def TaskLoop.cancel (l : TaskLoop) : TaskLoop :=
  { l with running := false }

/-- Observable events of the job manager: its log lines and the invocations
it performs, in program order. -/
inductive JobEvent : Type
  | job_disabled (name : String)
  | job_replacing (name : String)
  | job_cancelled (name : String) (gen : Nat)
  | job_removed (name : String)
  | job_not_found (name : String)
  | job_started (name : String) (gen : Nat)
  | job_executing (name : String)
  | action_invoked (name : String) (kwargs : Kwargs)
  | job_completed (name : String)
  | job_failed (name : String) (msg : String)
  | job_stopped (name : String)
  | all_jobs_stopped
  deriving Repr, DecidableEq

/-- State of one `CronJobManager` instance: `self.jobs`,
`self.job_configs`, `self._bot_ready`, plus `next_gen`, the model's fresh
identity counter for newly created loop objects. -/
structure CronJobManager where
  jobs : List (String × TaskLoop)
  job_configs : List (String × JobConfig)
  bot_ready : Bool
  next_gen : Nat

/-- Source `CronJobManager.__init__`: both dicts empty, bot not ready. -/
def CronJobManager.init : CronJobManager :=
  { jobs := [], job_configs := [], bot_ready := false, next_gen := 0 }

/-- Source method `remove_job(job_name)`: returns the updated state, the
boolean result, and the events in program order. -/
def CronJobManager.remove_job (s : CronJobManager) (job_name : String) :
    CronJobManager × Bool × List JobEvent :=
  match dictGet job_name s.jobs with
  | none => (s, false, [JobEvent.job_not_found job_name])
  | some job_task =>
      let cancelEvs :=
        if job_task.is_running then [JobEvent.job_cancelled job_name job_task.gen]
        else []
      ({ s with
          jobs := dictErase job_name s.jobs,
          job_configs := dictErase job_name s.job_configs },
       true, cancelEvs ++ [JobEvent.job_removed job_name])

/-- Source method `add_job(job_config)`: when enabled, replaces any existing
registration of the same name (via `remove_job`), stores the freshly created
loop and the config in both dicts, then starts the loop.  `Loop.start` is
called on a loop that is not yet running, so it cannot raise; `running :=
true` reflects the state after that call, and the start log event comes
after the insertion, as in the source. -/
def CronJobManager.add_job (s : CronJobManager) (job_config : JobConfig) :
    CronJobManager × List JobEvent :=
  if job_config.enabled = false then
    (s, [JobEvent.job_disabled job_config.name])
  else
    let repl :=
      if (dictGet job_config.name s.jobs).isSome then
        let r := s.remove_job job_config.name
        (r.1, JobEvent.job_replacing job_config.name :: r.2.2)
      else (s, ([] : List JobEvent))
    let s1 := repl.1
    let job_task : TaskLoop := { gen := s1.next_gen, cfg := job_config, running := true }
    ({ s1 with
        jobs := dictSet job_config.name job_task s1.jobs,
        job_configs := dictSet job_config.name job_config s1.job_configs,
        next_gen := s1.next_gen + 1 },
     repl.2 ++ [JobEvent.job_started job_config.name job_task.gen])

/-- Source method `list_jobs()`: the registered job names. -/
def CronJobManager.list_jobs (s : CronJobManager) : List String :=
  s.jobs.map Prod.fst

/-- Snapshot returned by `get_job_status` (the `next_iteration` field of the
source dict, owned by the scheduling library, is omitted). -/
structure JobStatus where
  name : String
  description : String
  schedule_time : ScheduleTime
  enabled : Bool
  running : Bool

/-- Source method `get_job_status(job_name)`: `none` when the name is
unknown, otherwise a read-only snapshot.  The source indexes
`self.job_configs[job_name]` directly after checking `self.jobs`; in states
reachable from `init` the two dicts have the same keys, so the inner
`none` branch is never taken. -/
def CronJobManager.get_job_status (s : CronJobManager) (job_name : String) :
    Option JobStatus :=
  match dictGet job_name s.jobs with
  | none => none
  | some job_task =>
      match dictGet job_name s.job_configs with
      | none => none
      | some job_config =>
          some { name := job_name,
                 description := job_config.description,
                 schedule_time := job_config.schedule_time,
                 enabled := job_config.enabled,
                 running := job_task.is_running }

/-- Source method `stop_all_jobs()`: cancels every running loop; the dicts
themselves are not modified.  The only call made on a loop is the guarded
`cancel`, which cannot raise, so the method is a total function. -/
def CronJobManager.stop_all_jobs (s : CronJobManager) :
    CronJobManager × List JobEvent :=
  ({ s with jobs := s.jobs.map fun nl =>
      (nl.1, if nl.2.is_running then nl.2.cancel else nl.2) },
   (s.jobs.filterMap fun nl =>
      if nl.2.is_running then some (JobEvent.job_stopped nl.1) else none)
     ++ [JobEvent.all_jobs_stopped])

/-- One execution of the `job_task` closure defined inside `add_job` (lines
79 to 96 of src/shared/job_manager.py): the captured descriptor's action is
invoked with `kwargs or {}`; an exception raised by the action is caught and
logged, never propagated. -/
def fire_body (name : String) (cfg : JobConfig) : List JobEvent :=
  let kw := cfg.kwargs.getD []
  JobEvent.job_executing name :: JobEvent.action_invoked name kw ::
    match cfg.job_function kw with
    | ActionResult.success => [JobEvent.job_completed name]
    | ActionResult.failure msg => [JobEvent.job_failed name msg]

/-- A scheduled fire instant for the loop registered under `name`: if a
running loop exists its body executes; the manager state is unchanged
because the body swallows failures. -/
def CronJobManager.fire (s : CronJobManager) (name : String) :
    CronJobManager × List JobEvent :=
  match dictGet name s.jobs with
  | none => (s, [])
  | some job_task =>
      if job_task.is_running then (s, fire_body name job_task.cfg) else (s, [])

/-- Consecutive fire instants for the loop registered under `name`. -/
def CronJobManager.fireN (s : CronJobManager) (name : String) :
    Nat → CronJobManager × List JobEvent
  | 0 => (s, [])
  | n + 1 =>
      let r1 := s.fire name
      let r2 := r1.1.fireN name n
      (r2.1, r1.2 ++ r2.2)

/-- Source method `auto_setup_jobs(bot_name)`: the external configuration
collaborator's answer (`get_jobs_for_bot(bot_name)`) is passed in as
`discovered`; each descriptor is added via `add_job`.  `add_job` is a total
function here, so the per-job `except` branch of the source is never
taken. -/
def CronJobManager.auto_setup_jobs (s : CronJobManager)
    (discovered : List JobConfig) : CronJobManager × List JobEvent :=
  discovered.foldl (fun acc cfg =>
    let r := acc.1.add_job cfg
    (r.1, acc.2 ++ r.2)) (s, [])

/-- Number of action invocations of job `name` in an event list. -/
def countInvoked (name : String) (evs : List JobEvent) : Nat :=
  (evs.filter fun e =>
    match e with
    | JobEvent.action_invoked n _ => n == name
    | _ => false).length

/-- Number of logged failures of job `name` in an event list. -/
def countFailed (name : String) (evs : List JobEvent) : Nat :=
  (evs.filter fun e =>
    match e with
    | JobEvent.job_failed n _ => n == name
    | _ => false).length

/-- The bookkeeping invariant of `CronJobManager`: `self.jobs` and
`self.job_configs` always bind exactly the same names, in the same order. -/
def keysAligned (s : CronJobManager) : Prop :=
  s.jobs.map Prod.fst = s.job_configs.map Prod.fst

/-! ## Worker runner (src/core/bot_runner.py, src/app.py) -/

/-- How one worker's async body (`run_bot_async`, i.e. the connected bot)
ends: it returns, is interrupted, or raises an exception. -/
inductive WorkerOutcome : Type
  | normal : WorkerOutcome
  | keyboard_interrupt : WorkerOutcome
  | raised (msg : String) : WorkerOutcome
  deriving Repr, DecidableEq

/-- Log lines of the worker runner layer. -/
inductive RunnerLog : Type
  | stopped_by_user (name : String)
  | crashed (name : String)
  | crashed_with_error (name : String) (msg : String)
  deriving Repr, DecidableEq

/-- Source function `run_bot(cfg)` (src/core/bot_runner.py lines 66 to 78):
runs the async body; `KeyboardInterrupt` and every `Exception` raised by the
body are caught and logged with the worker's name, so the function returns
normally in every case.  The second component is the exception escaping
`run_bot`, which is always `none`. -/
def run_bot (name : String) (outcome : WorkerOutcome) :
    List RunnerLog × Option String :=
  match outcome with
  | WorkerOutcome.normal => ([], none)
  | WorkerOutcome.keyboard_interrupt => ([RunnerLog.stopped_by_user name], none)
  | WorkerOutcome.raised _ => ([RunnerLog.crashed name], none)

/-- Source function `safe_run_bot(bot_cfg)` (src/app.py lines 12 to 18): the
process target; wraps `run_bot` and logs any exception escaping it. -/
def safe_run_bot (name : String) (outcome : WorkerOutcome) :
    List RunnerLog × Option String :=
  match run_bot name outcome with
  | (logs, none) => (logs, none)
  | (logs, some e) => (logs ++ [RunnerLog.crashed_with_error name e], none)

/-- Exit status of one worker process: a `multiprocessing.Process` whose
target returns normally exits with status 0; a nonzero status would require
an exception to escape the target. -/
def workerExitCode (name : String) (outcome : WorkerOutcome) : Nat :=
  match (safe_run_bot name outcome).2 with
  | none => 0
  | some _ => 1

/-! ## Supervisor / launcher (src/app.py `main`) -/

/-- Simulation of one configured bot as `main` observes it: whether
`Process.start()` succeeds, for how many further liveness polls the process
stays alive, and its exit code once dead. -/
structure SpecSim where
  name : String
  startOk : Bool
  aliveFor : Nat
  exitCode : Int
  deriving Repr, DecidableEq

/-- One running process inside the monitor loop. -/
structure ProcSim where
  name : String
  aliveFor : Nat
  exitCode : Int
  deriving Repr, DecidableEq

/-- Log lines of the launcher. -/
inductive LaunchLog : Type
  | started_bot (name : String)
  | failed_to_start (name : String)
  | no_bots_started
  | start_summary (ok failed : Nat)
  | bot_exit_normal (name : String)
  | bot_crashed (name : String) (code : Int)
  | all_bots_stopped
  deriving Repr, DecidableEq

/-- One pass of the monitor loop's `for` statement: survivors are kept (one
poll interval consumed), a process found dead is logged as a normal
shutdown or as a crash with its exit code. -/
def pollOnce (ps : List ProcSim) : List ProcSim × List LaunchLog :=
  (ps.filterMap fun p =>
     if p.aliveFor = 0 then none
     else some { p with aliveFor := p.aliveFor - 1 },
   ps.filterMap fun p =>
     if p.aliveFor = 0 then
       some (if p.exitCode = 0 then LaunchLog.bot_exit_normal p.name
             else LaunchLog.bot_crashed p.name p.exitCode)
     else none)

/-- Termination measure for the monitor loop. -/
def monitorMeasure : List ProcSim → Nat
  | [] => 0
  | p :: t => p.aliveFor + 1 + monitorMeasure t

/-- The monitor loop of `main` (src/app.py lines 72 to 97): polls liveness,
logs each death, and stops once no process is left, logging the final
message.  The loop always terminates because every simulated process dies
after finitely many polls. -/
def monitorLoop (ps : List ProcSim) : List LaunchLog :=
  if h : (pollOnce ps).1 = [] then (pollOnce ps).2 ++ [LaunchLog.all_bots_stopped]
  else (pollOnce ps).2 ++ monitorLoop (pollOnce ps).1
termination_by monitorMeasure ps
decreasing_by
  have hle : ∀ l : List ProcSim,
      monitorMeasure (pollOnce l).1 + l.length ≤ monitorMeasure l := by
    intro l
    simp only [pollOnce]
    induction l with
    | nil => simp [monitorMeasure]
    | cons p t ih =>
        by_cases hp : p.aliveFor = 0
        · rw [List.filterMap_cons_none (by simp [hp])]
          simp only [monitorMeasure, List.length_cons]
          omega
        · have hstep :
              List.filterMap
                (fun q : ProcSim =>
                  if q.aliveFor = 0 then (none : Option ProcSim)
                  else some { name := q.name, aliveFor := q.aliveFor - 1,
                              exitCode := q.exitCode }) (p :: t) =
              { name := p.name, aliveFor := p.aliveFor - 1, exitCode := p.exitCode } ::
                List.filterMap
                  (fun q : ProcSim =>
                    if q.aliveFor = 0 then (none : Option ProcSim)
                    else some { name := q.name, aliveFor := q.aliveFor - 1,
                                exitCode := q.exitCode }) t := by
            simp [List.filterMap_cons, hp]
          rw [hstep]
          simp only [monitorMeasure, List.length_cons]
          omega
  have hle := hle ps
  have hne : ps ≠ [] := by
    intro hnil
    rw [hnil] at h
    simp [pollOnce] at h
  have hlen : 1 ≤ ps.length := by
    cases ps with
    | nil => exact absurd rfl hne
    | cons a t => simp
  omega

/-- Outcome of running `main`. -/
structure MainResult where
  logs : List LaunchLog
  enteredMonitor : Bool
  exitCode : Nat
  deriving Repr, DecidableEq

/-- Source function `main()` (src/app.py lines 21 to 106): starts one
process per configured bot (a start failure is logged and recorded without
aborting the rest); with zero started processes it logs the fatal summary
and returns; otherwise it enters the monitor loop and returns when the loop
ends.  The Python function returns in every path modelled here, so the
launcher process exits with status 0. -/
def mainRun (specs : List SpecSim) : MainResult :=
  let startLogs := specs.map fun c =>
    if c.startOk then LaunchLog.started_bot c.name
    else LaunchLog.failed_to_start c.name
  let running := specs.filter fun c => c.startOk
  let failed := specs.filter fun c => !c.startOk
  if running.isEmpty then
    { logs := startLogs ++ [LaunchLog.no_bots_started],
      enteredMonitor := false, exitCode := 0 }
  else
    { logs := startLogs ++ [LaunchLog.start_summary running.length failed.length]
        ++ monitorLoop (running.map fun c =>
             { name := c.name, aliveFor := c.aliveFor, exitCode := c.exitCode }),
      enteredMonitor := true, exitCode := 0 }

/-! ## Concrete inputs used by the witnesses -/

/-- A concrete always-succeeding job descriptor. -/
def cfgA : JobConfig :=
  { name := "daily-ti-gia", description := "first registration",
    schedule_time := vietnam_time 7 0,
    job_function := fun _ => ActionResult.success,
    enabled := true, kwargs := some [("channel", "1")] }

/-- A concrete second registration under the same name with different
kwargs. -/
def cfgB : JobConfig :=
  { name := "daily-ti-gia", description := "second registration",
    schedule_time := vietnam_time 8 30,
    job_function := fun _ => ActionResult.success,
    enabled := true, kwargs := some [("channel", "2")] }

/-- A concrete disabled job descriptor. -/
def cfgDisabled : JobConfig :=
  { name := "disabled-job", description := "disabled",
    schedule_time := vietnam_time 7 0,
    job_function := fun _ => ActionResult.success,
    enabled := false, kwargs := none }

/-- A concrete descriptor whose action raises on every invocation. -/
def cfgFail : JobConfig :=
  { name := "failing-job", description := "always raises",
    schedule_time := vietnam_time 7 0,
    job_function := fun _ => ActionResult.failure "boom",
    enabled := true, kwargs := none }
theorem dictGet_eq_none_iff {α : Type} (k : String) (l : List (String × α)) :
    dictGet k l = none ↔ k ∉ l.map Prod.fst := by
  induction l with
  | nil => simp [dictGet]
  | cons p t ih =>
      obtain ⟨k', v⟩ := p
      by_cases h : k' = k
      · subst h
        simp [dictGet]
      · simp [dictGet, h, ih, Ne.symm h]

theorem dictGet_dictErase_self {α : Type} (k : String) (l : List (String × α)) :
    dictGet k (dictErase k l) = none := by
  induction l with
  | nil => simp [dictErase, dictGet]
  | cons p t ih =>
      obtain ⟨k', v⟩ := p
      by_cases h : k' = k <;> simp [dictErase, dictGet, h, ih]

theorem dictGet_dictErase_ne {α : Type} (k k' : String) (l : List (String × α))
    (h : k' ≠ k) : dictGet k' (dictErase k l) = dictGet k' l := by
  induction l with
  | nil => simp [dictErase]
  | cons p t ih =>
      obtain ⟨k1, v⟩ := p
      by_cases h1 : k1 = k
      · subst h1
        simp [dictErase, dictGet, ih, Ne.symm h]
      · simp [dictErase, dictGet, h1, ih]

theorem dictErase_of_not_mem {α : Type} (k : String) (l : List (String × α))
    (h : dictGet k l = none) : dictErase k l = l := by
  induction l with
  | nil => simp [dictErase]
  | cons p t ih =>
      obtain ⟨k', v⟩ := p
      by_cases h1 : k' = k
      · simp [dictGet, h1] at h
      · simp [dictGet, h1] at h
        simp [dictErase, h1, ih h]

theorem dictSet_of_not_mem {α : Type} (k : String) (v : α) (l : List (String × α))
    (h : dictGet k l = none) : dictSet k v l = l ++ [(k, v)] := by
  induction l with
  | nil => simp [dictSet]
  | cons p t ih =>
      obtain ⟨k', v'⟩ := p
      by_cases h1 : k' = k
      · simp [dictGet, h1] at h
      · simp [dictGet, h1] at h
        simp [dictSet, h1, ih h]

theorem dictGet_append_right {α : Type} (k : String) (l1 l2 : List (String × α))
    (h : dictGet k l1 = none) : dictGet k (l1 ++ l2) = dictGet k l2 := by
  induction l1 with
  | nil => simp
  | cons p t ih =>
      obtain ⟨k', v⟩ := p
      by_cases h1 : k' = k
      · simp [dictGet, h1] at h
      · simp [dictGet, h1] at h ⊢
        exact ih h

theorem dictGet_map_vals {α β : Type} (k : String) (g : String → α → β)
    (l : List (String × α)) :
    dictGet k (l.map fun nl => (nl.1, g nl.1 nl.2)) = (dictGet k l).map (g k) := by
  induction l with
  | nil => simp [dictGet]
  | cons p t ih =>
      obtain ⟨k', v⟩ := p
      by_cases h : k' = k <;> simp [dictGet, h, ih]

/-- C3, counterexample: at the instant `nextFire` returns, the local
wall-clock equals the target, so applying the same (smallest instant
`≥ now`) computation again returns the very same instant — the advance is 0
minutes, which is not at least 23 hours. -/
theorem c3_second_application_does_not_advance :
    nextFire (daily_at 0 0 0) (nextFire (daily_at 0 0 0) 0)
        - nextFire (daily_at 0 0 0) 0 = 0 ∧ (0 : Int) < 23 * 60 := by
  decide

/-- C3, amended: `nextFire` returns `now` exactly when `now`'s local
wall-clock equals (hour, minute) and a strictly later instant otherwise; the
returned instant's local wall-clock always equals the target; and the strict
recomputation (smallest instant strictly after the returned one, i.e. the
computation restarted at the following minute) advances by exactly 24 hours,
hence by at least 23 hours. -/
theorem c3_next_fire_correct (st : ScheduleTime) (now : Int)
    (hh : st.hour ≤ 23) (hm : st.minute ≤ 59) :
    (localMinuteOfDay st.tzOffset now = 60 * st.hour + st.minute →
        nextFire st now = now) ∧
    (localMinuteOfDay st.tzOffset now ≠ 60 * st.hour + st.minute →
        now < nextFire st now) ∧
    localMinuteOfDay st.tzOffset (nextFire st now) = 60 * st.hour + st.minute ∧
    (localMinuteOfDay st.tzOffset now = 60 * st.hour + st.minute →
        nextFire st (now + 1) = now + 1440) := by
  refine ⟨?_, ?_, ?_, ?_⟩
  · intro h
    simp [nextFire, localMinuteOfDay] at *
    omega
  · intro h
    simp only [nextFire, localMinuteOfDay] at *
    rw [if_neg h]
    omega
  · simp only [nextFire, localMinuteOfDay]
    split_ifs with h
    · omega
    · simp only [localMinuteOfDay] at h
      omega
  · intro h
    simp only [nextFire, localMinuteOfDay] at *
    split_ifs with h2
    · omega
    · omega

/-- C3 amended, witness at a schedule of 07:30 UTC: instant 450 has local
wall-clock 07:30 (fire now; strict recomputation advances 24 hours), while
instant 100 does not (strictly later fire whose wall-clock matches). -/
theorem c3_next_fire_correct_witness :
    nextFire (daily_at 7 30 0) 450 = 450 ∧
    (100 : Int) < nextFire (daily_at 7 30 0) 100 ∧
    localMinuteOfDay (daily_at 7 30 0).tzOffset (nextFire (daily_at 7 30 0) 100) =
        60 * (daily_at 7 30 0).hour + (daily_at 7 30 0).minute ∧
    nextFire (daily_at 7 30 0) (450 + 1) = 450 + 1440 := by
  obtain ⟨ha, -, -, hd⟩ :=
    c3_next_fire_correct (daily_at 7 30 0) 450 (by decide) (by decide)
  obtain ⟨-, hb, hc, -⟩ :=
    c3_next_fire_correct (daily_at 7 30 0) 100 (by decide) (by decide)
  exact ⟨ha (by decide), hb (by decide), hc, hd (by decide)⟩

theorem mem_keys_of_dictGet_some {α : Type} {k : String} {l : List (String × α)}
    {v : α} (h : dictGet k l = some v) : k ∈ l.map Prod.fst := by
  by_contra hmem
  rw [(dictGet_eq_none_iff k l).mpr hmem] at h
  exact Option.noConfusion h

theorem dictGet_isSome_congr {α β : Type} (k : String)
    (l1 : List (String × α)) (l2 : List (String × β))
    (h : l1.map Prod.fst = l2.map Prod.fst) :
    (dictGet k l1).isSome = (dictGet k l2).isSome := by
  rcases h1 : dictGet k l1 with _ | v <;> rcases h2 : dictGet k l2 with _ | w
  · rfl
  · have hn := (dictGet_eq_none_iff k l1).mp h1
    rw [h] at hn
    exact absurd (mem_keys_of_dictGet_some h2) hn
  · have hn := (dictGet_eq_none_iff k l2).mp h2
    rw [← h] at hn
    exact absurd (mem_keys_of_dictGet_some h1) hn
  · rfl

theorem keysOf_dictErase_congr {α β : Type} (k : String)
    (l1 : List (String × α)) (l2 : List (String × β))
    (h : l1.map Prod.fst = l2.map Prod.fst) :
    (dictErase k l1).map Prod.fst = (dictErase k l2).map Prod.fst := by
  induction l1 generalizing l2 with
  | nil =>
      have : l2 = [] := by
        cases l2 with
        | nil => rfl
        | cons b t2 => simp at h
      subst this
      rfl
  | cons a t ih =>
      cases l2 with
      | nil => simp at h
      | cons b t2 =>
          obtain ⟨a1, a2⟩ := a
          obtain ⟨b1, b2⟩ := b
          simp at h
          obtain ⟨h1, h2⟩ := h
          subst h1
          by_cases hk : a1 = k
          · simp [dictErase, hk, ih t2 h2]
          · simp [dictErase, hk, ih t2 h2]

theorem keysOf_dictSet_congr {α β : Type} (k : String) (v1 : α) (v2 : β)
    (l1 : List (String × α)) (l2 : List (String × β))
    (h : l1.map Prod.fst = l2.map Prod.fst) :
    (dictSet k v1 l1).map Prod.fst = (dictSet k v2 l2).map Prod.fst := by
  induction l1 generalizing l2 with
  | nil =>
      have : l2 = [] := by
        cases l2 with
        | nil => rfl
        | cons b t2 => simp at h
      subst this
      rfl
  | cons a t ih =>
      cases l2 with
      | nil => simp at h
      | cons b t2 =>
          obtain ⟨a1, a2⟩ := a
          obtain ⟨b1, b2⟩ := b
          simp at h
          obtain ⟨h1, h2⟩ := h
          subst h1
          by_cases hk : a1 = k
          · simp [dictSet, hk]
            exact h2
          · simp [dictSet, hk, ih t2 h2]

theorem mem_keys_dictErase {α : Type} (k n : String) (l : List (String × α)) :
    n ∈ (dictErase k l).map Prod.fst ↔ n ∈ l.map Prod.fst ∧ n ≠ k := by
  induction l with
  | nil => simp [dictErase]
  | cons a t ih =>
      obtain ⟨a1, a2⟩ := a
      by_cases hk : a1 = k
      · subst hk
        simp [dictErase, ih]
        tauto
      · by_cases hn : a1 = n
        · subst hn
          simp [dictErase, hk, ih, Ne.symm hk]
        · simp [dictErase, hk, Ne.symm hn, ih]

theorem mem_keys_dictSet {α : Type} (k n : String) (v : α) (l : List (String × α)) :
    n ∈ (dictSet k v l).map Prod.fst ↔ n ∈ l.map Prod.fst ∨ n = k := by
  induction l with
  | nil => simp [dictSet, eq_comm]
  | cons a t ih =>
      obtain ⟨a1, a2⟩ := a
      by_cases hk : a1 = k
      · subst hk
        simp [dictSet, eq_comm]
        tauto
      · simp [dictSet, hk, ih]
        tauto

theorem keysOf_map_vals {α β : Type} (f : String × α → β) (l : List (String × α)) :
    (l.map fun nl => (nl.1, f nl)).map Prod.fst = l.map Prod.fst := by
  induction l with
  | nil => rfl
  | cons a t ih => simp [ih]

theorem filter_key_dictErase {α : Type} (k : String) (l : List (String × α)) :
    (dictErase k l).filter (fun nl => nl.1 == k) = [] := by
  induction l with
  | nil => rfl
  | cons a t ih =>
      obtain ⟨a1, a2⟩ := a
      by_cases hk : a1 = k
      · simp [dictErase, hk, ih]
      · simp [dictErase, hk, ih, List.filter_cons]

theorem add_job_enabled_state (s : CronJobManager) (cfg : JobConfig)
    (h : cfg.enabled = true) :
    (s.add_job cfg).1 =
      if (dictGet cfg.name s.jobs).isSome then
        { jobs := dictSet cfg.name { gen := s.next_gen, cfg := cfg, running := true }
                    (dictErase cfg.name s.jobs),
          job_configs := dictSet cfg.name cfg (dictErase cfg.name s.job_configs),
          bot_ready := s.bot_ready, next_gen := s.next_gen + 1 }
      else
        { jobs := dictSet cfg.name { gen := s.next_gen, cfg := cfg, running := true }
                    s.jobs,
          job_configs := dictSet cfg.name cfg s.job_configs,
          bot_ready := s.bot_ready, next_gen := s.next_gen + 1 } := by
  cases hm : dictGet cfg.name s.jobs with
  | none => simp [CronJobManager.add_job, h, hm]
  | some jt => simp [CronJobManager.add_job, CronJobManager.remove_job, h, hm]

theorem add_job_enabled_jobs (s : CronJobManager) (cfg : JobConfig)
    (h : cfg.enabled = true) :
    (s.add_job cfg).1.jobs =
        dictErase cfg.name s.jobs ++
          [(cfg.name, { gen := s.next_gen, cfg := cfg, running := true })] ∧
    (s.add_job cfg).1.next_gen = s.next_gen + 1 := by
  rw [add_job_enabled_state s cfg h]
  cases hm : dictGet cfg.name s.jobs with
  | none =>
      simp [dictSet_of_not_mem _ _ _ hm, dictErase_of_not_mem _ _ hm]
  | some jt =>
      simp [dictSet_of_not_mem _ _ _ (dictGet_dictErase_self cfg.name s.jobs)]

theorem add_job_enabled_events_of_running (s : CronJobManager) (cfg : JobConfig)
    (h : cfg.enabled = true) (jt : TaskLoop)
    (hm : dictGet cfg.name s.jobs = some jt) (hr : jt.running = true) :
    (s.add_job cfg).2 =
      [JobEvent.job_replacing cfg.name, JobEvent.job_cancelled cfg.name jt.gen,
       JobEvent.job_removed cfg.name, JobEvent.job_started cfg.name s.next_gen] := by
  simp [CronJobManager.add_job, CronJobManager.remove_job, h, hm,
    TaskLoop.is_running, hr]

theorem map_stop_eq_self (l : List (String × TaskLoop))
    (h : ∀ nl ∈ l, nl.2.is_running = false) :
    (l.map fun nl => (nl.1, if nl.2.is_running then nl.2.cancel else nl.2)) = l := by
  induction l with
  | nil => rfl
  | cons a t ih =>
      have ha := h a (by simp)
      simp [ha, ih fun nl hnl => h nl (by simp [hnl])]

theorem stop_all_jobs_all_stopped (s : CronJobManager) :
    ∀ nl ∈ ((s.stop_all_jobs).1).jobs, nl.2.is_running = false := by
  intro nl hnl
  simp only [CronJobManager.stop_all_jobs, List.mem_map] at hnl
  obtain ⟨x, hx, rfl⟩ := hnl
  by_cases hb : x.2.running = true
  · simp [TaskLoop.is_running, TaskLoop.cancel, hb]
  · simp only [Bool.not_eq_true] at hb
    simp [TaskLoop.is_running, hb]

/-- C6: `stop_all_jobs` leaves zero running loops, and calling it twice in a
row is harmless: the second call does not change the state and again leaves
zero running loops.  The method is a total function of the state — its only
loop call is a `cancel` guarded by `is_running`, which cannot raise. -/
theorem c6_stop_all_jobs_safe_twice (s : CronJobManager) :
    (∀ nl ∈ ((s.stop_all_jobs).1).jobs, nl.2.is_running = false) ∧
    ((s.stop_all_jobs).1.stop_all_jobs).1 = (s.stop_all_jobs).1 ∧
    (∀ nl ∈ (((s.stop_all_jobs).1.stop_all_jobs).1).jobs,
      nl.2.is_running = false) := by
  refine ⟨stop_all_jobs_all_stopped s, ?_, stop_all_jobs_all_stopped _⟩
  have hproj : ∀ x : CronJobManager, (x.stop_all_jobs).1 =
      { x with jobs := x.jobs.map fun nl =>
          (nl.1, if nl.2.is_running then nl.2.cancel else nl.2) } :=
    fun x => rfl
  rw [hproj ((s.stop_all_jobs).1),
    map_stop_eq_self ((s.stop_all_jobs).1).jobs (stop_all_jobs_all_stopped s)]

/-- C7: `remove_job` returns true exactly when the name was registered,
deregisters the name, and is idempotent — the second call returns false and
leaves the state unchanged. -/
theorem c7_remove_job_correct (s : CronJobManager) (name : String) :
    ((s.remove_job name).2.1 = true ↔ (dictGet name s.jobs).isSome = true) ∧
    dictGet name ((s.remove_job name).1).jobs = none ∧
    ((s.remove_job name).1.remove_job name).2.1 = false ∧
    ((s.remove_job name).1.remove_job name).1 = (s.remove_job name).1 := by
  have hidem : ∀ s' : CronJobManager, dictGet name s'.jobs = none →
      s'.remove_job name = (s', false, [JobEvent.job_not_found name]) :=
    fun s' h => by simp [CronJobManager.remove_job, h]
  cases hm : dictGet name s.jobs with
  | none =>
      have h2 : dictGet name ((s.remove_job name).1).jobs = none := by
        rw [hidem s hm]
        exact hm
      refine ⟨by simp [CronJobManager.remove_job, hm], h2, ?_, ?_⟩
      · rw [hidem _ h2]
      · rw [hidem _ h2]
  | some jt =>
      have h2 : dictGet name ((s.remove_job name).1).jobs = none := by
        simp [CronJobManager.remove_job, hm, dictGet_dictErase_self]
      refine ⟨by simp [CronJobManager.remove_job, hm], h2, ?_, ?_⟩
      · rw [hidem _ h2]
      · rw [hidem _ h2]

/-- C8: adding a disabled descriptor is a pure no-op apart from the log
line: the state (both dicts included) is returned unchanged and no loop is
created, started, or stopped. -/
theorem c8_add_job_disabled_noop (s : CronJobManager) (cfg : JobConfig)
    (h : cfg.enabled = false) :
    s.add_job cfg = (s, [JobEvent.job_disabled cfg.name]) := by
  simp [CronJobManager.add_job, h]

/-- C8, witness: the concrete disabled descriptor on the initial state. -/
theorem c8_add_job_disabled_noop_witness :
    cfgDisabled.enabled = false ∧
    CronJobManager.init.add_job cfgDisabled =
      (CronJobManager.init, [JobEvent.job_disabled cfgDisabled.name]) :=
  ⟨rfl, c8_add_job_disabled_noop CronJobManager.init cfgDisabled rfl⟩

theorem add_job_keysAligned (s : CronJobManager) (cfg : JobConfig)
    (h : keysAligned s) : keysAligned ((s.add_job cfg).1) := by
  unfold keysAligned at h ⊢
  by_cases he : cfg.enabled = false
  · simp [CronJobManager.add_job, he, h]
  · have he' : cfg.enabled = true := by
      cases hcfg : cfg.enabled
      · exact absurd hcfg he
      · rfl
    cases hmo : dictGet cfg.name s.jobs with
    | none =>
        rw [add_job_enabled_state s cfg he', hmo]
        exact keysOf_dictSet_congr _ _ _ _ _ h
    | some jt =>
        rw [add_job_enabled_state s cfg he', hmo]
        exact keysOf_dictSet_congr _ _ _ _ _ (keysOf_dictErase_congr _ _ _ h)

theorem remove_job_keysAligned (s : CronJobManager) (name : String)
    (h : keysAligned s) : keysAligned ((s.remove_job name).1) := by
  unfold keysAligned at h ⊢
  cases hm : dictGet name s.jobs with
  | none => simp [CronJobManager.remove_job, hm, h]
  | some jt =>
      simp only [CronJobManager.remove_job, hm]
      exact keysOf_dictErase_congr _ _ _ h

theorem stop_all_jobs_keysAligned (s : CronJobManager)
    (h : keysAligned s) : keysAligned ((s.stop_all_jobs).1) := by
  unfold keysAligned at h ⊢
  rw [show ((s.stop_all_jobs).1).job_configs = s.job_configs from rfl,
    show ((s.stop_all_jobs).1).jobs = s.jobs.map (fun nl =>
      (nl.1, if nl.2.is_running then nl.2.cancel else nl.2)) from rfl,
    keysOf_map_vals]
  exact h

theorem auto_setup_jobs_keysAligned (discovered : List JobConfig)
    (s : CronJobManager) (h : keysAligned s) :
    keysAligned ((s.auto_setup_jobs discovered).1) := by
  suffices hgen : ∀ acc : CronJobManager × List JobEvent, keysAligned acc.1 →
      keysAligned ((discovered.foldl (fun acc cfg =>
        let r := acc.1.add_job cfg
        (r.1, acc.2 ++ r.2)) acc).1) by
    exact hgen (s, []) h
  intro acc
  induction discovered generalizing acc with
  | nil =>
      intro hacc
      simpa using hacc
  | cons c t ih =>
      intro hacc
      rw [List.foldl_cons]
      exact ih _ (add_job_keysAligned _ _ hacc)

/-- C9: the loop dict and the config dict of a `CronJobManager` always bind
exactly the same names: the alignment holds initially and is preserved by
`add_job`, `remove_job`, `stop_all_jobs`, and `auto_setup_jobs`; under it no
name is present in one dict and absent from the other, so `get_job_status`
can never hit a name with a loop but no config. -/
theorem c9_jobs_and_configs_keys_agree (s : CronJobManager) (cfg : JobConfig)
    (name : String) (discovered : List JobConfig) (h : keysAligned s) :
    keysAligned CronJobManager.init ∧
    keysAligned ((s.add_job cfg).1) ∧
    keysAligned ((s.remove_job name).1) ∧
    keysAligned ((s.stop_all_jobs).1) ∧
    keysAligned ((s.auto_setup_jobs discovered).1) ∧
    (∀ n : String, (dictGet n s.jobs).isSome = (dictGet n s.job_configs).isSome) ∧
    (∀ n : String, (dictGet n s.jobs).isSome = true →
      (s.get_job_status n).isSome = true) := by
  refine ⟨rfl, add_job_keysAligned s cfg h, remove_job_keysAligned s name h,
    stop_all_jobs_keysAligned s h, auto_setup_jobs_keysAligned discovered s h,
    fun n => dictGet_isSome_congr n _ _ h, ?_⟩
  intro n hsome
  rcases hj : dictGet n s.jobs with _ | jt
  · rw [hj] at hsome
    simp at hsome
  · have hc := dictGet_isSome_congr n s.jobs s.job_configs h
    rw [hj] at hc
    rcases hcfg : dictGet n s.job_configs with _ | jc
    · rw [hcfg] at hc
      simp at hc
    · simp [CronJobManager.get_job_status, hj, hcfg]

/-- C9, witness: the alignment facts at the initial state and a concrete
descriptor list. -/
theorem c9_jobs_and_configs_keys_agree_witness :
    keysAligned CronJobManager.init ∧
    keysAligned ((CronJobManager.init.add_job cfgA).1) ∧
    keysAligned ((CronJobManager.init.auto_setup_jobs [cfgA, cfgB]).1) ∧
    (dictGet "daily-ti-gia" CronJobManager.init.jobs).isSome =
      (dictGet "daily-ti-gia" CronJobManager.init.job_configs).isSome := by
  obtain ⟨h1, h2, h3, h4, h5, h6, h7⟩ :=
    c9_jobs_and_configs_keys_agree CronJobManager.init cfgA "daily-ti-gia"
      [cfgA, cfgB] rfl
  exact ⟨h1, h2, h5, h6 "daily-ti-gia"⟩

theorem dictGet_stop_all_jobs (s : CronJobManager) (n : String) :
    dictGet n ((s.stop_all_jobs).1).jobs =
      (dictGet n s.jobs).map fun l => if l.is_running then l.cancel else l :=
  dictGet_map_vals n (fun (_ : String) (l : TaskLoop) =>
    if l.is_running then l.cancel else l) s.jobs

/-- C10: `stop_all_jobs` cancels loops but deregisters nothing — the job
names listed by `list_jobs` and the definedness of `get_job_status` are
unchanged by it; `add_job` never removes a registered name either, and a
fire instant leaves the state untouched, so only `remove_job` shrinks the
registered set. -/
theorem c10_stop_all_jobs_keeps_registrations (s : CronJobManager)
    (cfg : JobConfig) (name : String) :
    ((s.stop_all_jobs).1).list_jobs = s.list_jobs ∧
    (∀ n, (((s.stop_all_jobs).1).get_job_status n).isSome =
      (s.get_job_status n).isSome) ∧
    (∀ n, n ∈ s.list_jobs → n ∈ ((s.add_job cfg).1).list_jobs) ∧
    (s.fire name).1 = s := by
  refine ⟨?_, ?_, ?_, ?_⟩
  · exact keysOf_map_vals
      (fun nl => if nl.2.is_running then nl.2.cancel else nl.2) s.jobs
  · intro n
    have hcfgs : ((s.stop_all_jobs).1).job_configs = s.job_configs := rfl
    simp only [CronJobManager.get_job_status, dictGet_stop_all_jobs, hcfgs]
    cases dictGet n s.jobs <;> cases dictGet n s.job_configs <;> simp
  · intro n hn
    simp only [CronJobManager.list_jobs] at hn ⊢
    by_cases he : cfg.enabled = false
    · simpa [CronJobManager.add_job, he] using hn
    · have he' : cfg.enabled = true := by
        cases hcfg : cfg.enabled
        · exact absurd hcfg he
        · rfl
      rw [add_job_enabled_state s cfg he']
      cases hmo : dictGet cfg.name s.jobs with
      | none =>
          exact (mem_keys_dictSet _ _ _ _).mpr (Or.inl hn)
      | some jt =>
          rcases eq_or_ne n cfg.name with hnc | hnc
          · exact (mem_keys_dictSet _ _ _ _).mpr (Or.inr hnc)
          · exact (mem_keys_dictSet _ _ _ _).mpr
              (Or.inl ((mem_keys_dictErase _ _ _).mpr ⟨hn, hnc⟩))
  · cases hm : dictGet name s.jobs with
    | none => simp [CronJobManager.fire, hm]
    | some jt =>
        by_cases hr : jt.is_running = true <;> simp [CronJobManager.fire, hm, hr]

/-- C1: adding a second enabled descriptor under an already-registered name
leaves exactly one registration of that name; during the second `add_job`
the first registration's (running) loop is cancelled and removed before the
new loop is inserted and started, as the event order shows; and the loop
registered afterwards is the second registration's — a fire instant runs
the second descriptor's body, so its kwargs, not the first's, are passed to
the action. -/
theorem c1_add_job_same_name_replaces (s : CronJobManager)
    (cfg1 cfg2 : JobConfig) (h1 : cfg1.enabled = true)
    (h2 : cfg2.enabled = true) (hn : cfg2.name = cfg1.name) :
    ((((s.add_job cfg1).1.add_job cfg2).1.jobs.filter
        (fun nl => nl.1 == cfg1.name)).length = 1) ∧
    ((s.add_job cfg1).1.add_job cfg2).2 =
      [JobEvent.job_replacing cfg1.name,
       JobEvent.job_cancelled cfg1.name s.next_gen,
       JobEvent.job_removed cfg1.name,
       JobEvent.job_started cfg1.name (s.next_gen + 1)] ∧
    dictGet cfg1.name (((s.add_job cfg1).1.add_job cfg2).1).jobs =
      some { gen := s.next_gen + 1, cfg := cfg2, running := true } ∧
    ((((s.add_job cfg1).1.add_job cfg2).1).fire cfg1.name).2 =
      fire_body cfg1.name cfg2 := by
  obtain ⟨hjobs1, hgen1⟩ := add_job_enabled_jobs s cfg1 h1
  have hget1 : dictGet cfg1.name ((s.add_job cfg1).1).jobs =
      some { gen := s.next_gen, cfg := cfg1, running := true } := by
    rw [hjobs1, dictGet_append_right _ _ _ (dictGet_dictErase_self _ _)]
    simp [dictGet]
  obtain ⟨hjobs2, hgen2⟩ := add_job_enabled_jobs ((s.add_job cfg1).1) cfg2 h2
  rw [hn, hgen1] at hjobs2
  have hget2 : dictGet cfg1.name (((s.add_job cfg1).1.add_job cfg2).1).jobs =
      some { gen := s.next_gen + 1, cfg := cfg2, running := true } := by
    rw [hjobs2, dictGet_append_right _ _ _ (dictGet_dictErase_self _ _)]
    simp [dictGet]
  refine ⟨?_, ?_, hget2, ?_⟩
  · rw [hjobs2, List.filter_append, filter_key_dictErase]
    simp [List.filter]
  · have hev := add_job_enabled_events_of_running ((s.add_job cfg1).1) cfg2 h2
      { gen := s.next_gen, cfg := cfg1, running := true }
      (by rw [hn]; exact hget1) rfl
    rw [hev, hn, hgen1]
  · simp [CronJobManager.fire, hget2, TaskLoop.is_running]

/-- C1, witness: two concrete descriptors with the same name and distinct
kwargs bags, run from the initial state; the extra equation at the end
evaluates the fire instant and shows the second descriptor's kwargs bag
being passed. -/
theorem c1_add_job_same_name_replaces_witness :
    ((((CronJobManager.init.add_job cfgA).1.add_job cfgB).1.jobs.filter
        (fun nl => nl.1 == cfgA.name)).length = 1) ∧
    ((CronJobManager.init.add_job cfgA).1.add_job cfgB).2 =
      [JobEvent.job_replacing cfgA.name,
       JobEvent.job_cancelled cfgA.name 0,
       JobEvent.job_removed cfgA.name,
       JobEvent.job_started cfgA.name 1] ∧
    ((((CronJobManager.init.add_job cfgA).1.add_job cfgB).1).fire cfgA.name).2 =
      [JobEvent.job_executing "daily-ti-gia",
       JobEvent.action_invoked "daily-ti-gia" [("channel", "2")],
       JobEvent.job_completed "daily-ti-gia"] := by
  obtain ⟨w1, w2, w3, w4⟩ :=
    c1_add_job_same_name_replaces CronJobManager.init cfgA cfgB rfl rfl rfl
  exact ⟨w1, w2, by rw [w4]; rfl⟩

theorem countInvoked_append (name : String) (l1 l2 : List JobEvent) :
    countInvoked name (l1 ++ l2) =
      countInvoked name l1 + countInvoked name l2 := by
  simp [countInvoked, List.filter_append]

theorem countFailed_append (name : String) (l1 l2 : List JobEvent) :
    countFailed name (l1 ++ l2) =
      countFailed name l1 + countFailed name l2 := by
  simp [countFailed, List.filter_append]

/-- C2: with the loop registered under `name` running a descriptor whose
action raises on every invocation, `n` consecutive fire instants produce
exactly `n` invocation attempts and `n` logged failures, the manager state
is unchanged, and the loop is still registered (and running) afterwards: no
exception escapes the loop body. -/
theorem c2_failing_action_loop_survives (s : CronJobManager) (name : String)
    (loop : TaskLoop) (n : Nat)
    (hreg : dictGet name s.jobs = some loop)
    (hrun : loop.is_running = true)
    (hfail : ∀ kw, ∃ m, loop.cfg.job_function kw = ActionResult.failure m) :
    (s.fireN name n).1 = s ∧
    dictGet name ((s.fireN name n).1).jobs = some loop ∧
    countInvoked name (s.fireN name n).2 = n ∧
    countFailed name (s.fireN name n).2 = n := by
  have hfire : s.fire name = (s, fire_body name loop.cfg) := by
    simp [CronJobManager.fire, hreg, hrun]
  obtain ⟨m, hm⟩ := hfail (loop.cfg.kwargs.getD [])
  have hbody : fire_body name loop.cfg =
      [JobEvent.job_executing name,
       JobEvent.action_invoked name (loop.cfg.kwargs.getD []),
       JobEvent.job_failed name m] := by
    simp [fire_body, hm]
  have hci : countInvoked name (fire_body name loop.cfg) = 1 := by
    rw [hbody]
    simp [countInvoked, List.filter]
  have hcf : countFailed name (fire_body name loop.cfg) = 1 := by
    rw [hbody]
    simp [countFailed, List.filter]
  induction n with
  | zero => exact ⟨rfl, hreg, rfl, rfl⟩
  | succ k ih =>
      obtain ⟨ih1, ih2, ih3, ih4⟩ := ih
      have hstep : s.fireN name (k + 1) =
          ((s.fireN name k).1, fire_body name loop.cfg ++ (s.fireN name k).2) := by
        simp [CronJobManager.fireN, hfire]
      rw [hstep]
      refine ⟨ih1, ?_, ?_, ?_⟩
      · simpa using ih2
      · rw [countInvoked_append, hci, ih3]
        omega
      · rw [countFailed_append, hcf, ih4]
        omega

/-- C2, witness: three fire instants of the concrete always-raising job. -/
theorem c2_failing_action_loop_survives_witness :
    ((CronJobManager.init.add_job cfgFail).1.fireN "failing-job" 3).1 =
      (CronJobManager.init.add_job cfgFail).1 ∧
    countInvoked "failing-job"
      ((CronJobManager.init.add_job cfgFail).1.fireN "failing-job" 3).2 = 3 ∧
    countFailed "failing-job"
      ((CronJobManager.init.add_job cfgFail).1.fireN "failing-job" 3).2 = 3 := by
  obtain ⟨w1, w2, w3, w4⟩ := c2_failing_action_loop_survives
    (CronJobManager.init.add_job cfgFail).1 "failing-job"
    { gen := 0, cfg := cfgFail, running := true } 3 rfl rfl
    (fun _ => ⟨"boom", rfl⟩)
  exact ⟨w1, w3, w4⟩

/-- C4, counterexample: a worker whose running body raises has the crash
logged with its name, but the process target returns normally, so the
worker process exits with status 0 — not nonzero as claimed. -/
theorem c4_worker_crash_exits_zero :
    (safe_run_bot "ti-gia" (WorkerOutcome.raised "boom")).1 =
      [RunnerLog.crashed "ti-gia"] ∧
    workerExitCode "ti-gia" (WorkerOutcome.raised "boom") = 0 :=
  ⟨rfl, rfl⟩

/-- C4, amended: an uncaught error raised while the worker is running is
caught by `run_bot`'s blanket handler and logged with the worker's name,
after which the process target returns normally and the worker process
exits with status 0 — the error is swallowed at this layer, never turned
into a nonzero exit. -/
theorem c4_worker_crash_logged_but_swallowed (name msg : String) :
    (safe_run_bot name (WorkerOutcome.raised msg)).1 =
      [RunnerLog.crashed name] ∧
    (safe_run_bot name (WorkerOutcome.raised msg)).2 = none ∧
    workerExitCode name (WorkerOutcome.raised msg) = 0 :=
  ⟨rfl, rfl, rfl⟩

/-- C5, counterexample: when the only configured bot fails to start, `main`
logs the fatal summary and returns before the monitor loop — but `return`
ends the Python process with exit status 0, not nonzero as claimed. -/
theorem c5_zero_started_exits_zero :
    (mainRun [{ name := "ti-gia", startOk := false, aliveFor := 0,
                exitCode := 0 }]).exitCode = 0 ∧
    (mainRun [{ name := "ti-gia", startOk := false, aliveFor := 0,
                exitCode := 0 }]).enteredMonitor = false := by
  constructor <;> rfl

/-- C5, amended: when zero workers start, the supervisor logs the fatal
summary and exits without entering the monitoring loop, but the launcher's
exit code is 0 in that case — exactly as on graceful full shutdown, where
the monitor loop ends and `main` returns; `mainRun` yields exit code 0 on
every input. -/
theorem c5_supervisor_exit_code (specs : List SpecSim)
    (hall : ∀ c ∈ specs, c.startOk = false) :
    (mainRun specs).enteredMonitor = false ∧
    LaunchLog.no_bots_started ∈ (mainRun specs).logs ∧
    (∀ l : List SpecSim, (mainRun l).exitCode = 0) := by
  have hrun : specs.filter (fun c => c.startOk) = [] := by
    rw [List.filter_eq_nil_iff]
    intro c hc
    simp [hall c hc]
  have hthen : mainRun specs =
      { logs := (specs.map fun c =>
          if c.startOk then LaunchLog.started_bot c.name
          else LaunchLog.failed_to_start c.name) ++ [LaunchLog.no_bots_started],
        enteredMonitor := false, exitCode := 0 } := by
    simp [mainRun, hrun]
  refine ⟨by rw [hthen], by rw [hthen]; simp, ?_⟩
  intro l
  by_cases hl : (l.filter fun c => c.startOk).isEmpty <;> simp [mainRun, hl]

/-- C5, witness: one failing spec for the fatal-summary branch and one
succeeding spec for the exit-code-0 conjunct. -/
theorem c5_supervisor_exit_code_witness :
    (mainRun [{ name := "a", startOk := false, aliveFor := 0,
                exitCode := 0 }]).enteredMonitor = false ∧
    LaunchLog.no_bots_started ∈
      (mainRun [{ name := "a", startOk := false, aliveFor := 0,
                  exitCode := 0 }]).logs ∧
    (mainRun [{ name := "b", startOk := true, aliveFor := 2,
                exitCode := 0 }]).exitCode = 0 := by
  obtain ⟨w1, w2, w3⟩ := c5_supervisor_exit_code
    [{ name := "a", startOk := false, aliveFor := 0, exitCode := 0 }]
    (by decide)
  refine ⟨w1, w2, ?_⟩
  exact w3 [({ name := "b", startOk := true, aliveFor := 2, exitCode := 0 } : SpecSim)]
